import Mathlib

/-!
Verification development for the `area-api` geospatial area engine.

The TypeScript sources are embedded shallowly:

* coordinates and scores are modelled as exact rationals (`ℚ`); the
  JavaScript number operations that appear in the relevant code paths
  (`Math.floor`, `Math.round`, `%`, division) are modelled exactly by
  `Int.floor`, `jsRound`, `jsMod` and friends;
* the transcendental helpers of `src/lib/geo.ts` (`haversineDistance`,
  `calculateBearing`, `Math.cos` inside `boundingBoxFromRadius`) are
  modelled as an oracle (`GeoOracle`): the query-engine claims under
  verification are purely structural in the values these functions return,
  so the theorems quantify over the oracle;
* JavaScript strings are modelled as `List Char`; the Unicode-table based
  `normalizeText` (NFD + combining-mark stripping) and `toLowerCase` are
  oracle parameters of `fuzzyScore` for the same reason;
* `bun:sqlite` is modelled by explicit row lists: the `areas` table joined
  with its `areas_rtree` entry becomes `List DbRow`, and each SQL `WHERE`
  clause is embedded as the corresponding filter.
-/

namespace AreaApi

/-- GeoJSON position `[lng, lat]` as an exact pair of rationals. -/
abbrev GPos := ℚ × ℚ

structure Point where
  lat : ℚ
  lng : ℚ
deriving DecidableEq

/-! ## JavaScript number helpers -/

/-- Truncation toward zero, as used by the JavaScript `%` operator. -/
def jsTrunc (q : ℚ) : ℤ :=
  if 0 ≤ q then ⌊q⌋ else -⌊-q⌋

/-- The JavaScript `%` operator on numbers (truncated remainder). -/
def jsMod (a b : ℚ) : ℚ :=
  a - b * (jsTrunc (a / b) : ℚ)

/-- JavaScript `Math.round`: rounds half toward positive infinity. -/
def jsRound (q : ℚ) : ℤ :=
  ⌊q + 1 / 2⌋

/-- The JavaScript `%` operator on integer-valued numbers. -/
def jsIntMod (a b : ℤ) : ℤ :=
  Int.tmod a b

/-- JavaScript division where `0 / 0` produces `NaN`; `none` models the
`NaN` outcome.  In the embedded code the only division reached with a zero
denominator is the centroid's `sum / count` with `count = 0`. -/
def jsDiv (a b : ℚ) : Option ℚ :=
  if b = 0 then none else some (a / b)

/-! ## `src/lib/geo.ts` -/

/-- Geometry payload of an area: GeoJSON `Polygon` (list of rings, outer
first) or `MultiPolygon` (list of polygons, each a list of rings). -/
inductive Geo where
  | polygon (rings : List (List GPos))
  | multiPolygon (polys : List (List (List GPos)))
deriving DecidableEq

/-- `roundBearingToSector` from `src/lib/geo.ts` (lines 44-54). -/
def roundBearingToSector (bearing : ℚ) (sectors : ℕ := 8) : ℚ :=
  let sectorSize : ℚ := 360 / (sectors : ℚ)
  let halfSector := sectorSize / 2
  let adjusted := jsMod (bearing + halfSector) 360
  let sectorIndex : ℤ := ⌊adjusted / sectorSize⌋
  jsMod ((sectorIndex : ℚ) * sectorSize) 360

/-- `bearingToCardinal` from `src/lib/geo.ts` (lines 59-63).  A negative or
out-of-range JavaScript array index yields `undefined`, defaulted to
`"N"` by the `?? "N"` in the source. -/
def bearingToCardinal (bearing : ℚ) : String :=
  let directions : List String := ["N", "NE", "E", "SE", "S", "SW", "W", "NW"]
  let index : ℤ := jsIntMod (jsRound (bearing / 45)) 8
  if 0 ≤ index then directions.getD index.toNat "N" else "N"

/-- The per-ring accumulation step of `centroid`: sums lat/lng over all
coordinates except the last one (the closing duplicate) and counts them.
Accumulator is `(sumLat, sumLng, count)`; a position is `(lng, lat)`. -/
def centroidStep (acc : ℚ × ℚ × ℕ) (coords : List GPos) : ℚ × ℚ × ℕ :=
  coords.dropLast.foldl (fun a c => (a.1 + c.2, a.2.1 + c.1, a.2.2 + 1)) acc

/-- `centroid` from `src/lib/geo.ts` (lines 170-204): arithmetic mean of the
outer-ring vertices (all outer rings pooled for a MultiPolygon).  The
result components are `Option ℚ`, with `none` modelling the IEEE `NaN`
that JavaScript produces for `0 / 0`; the pair is `(lat, lng)`. -/
def centroid (g : Geo) : Option ℚ × Option ℚ :=
  let s :=
    match g with
    | .polygon rings => centroidStep (0, 0, 0) (rings.headD [])
    | .multiPolygon polys =>
      polys.foldl (fun acc (poly : List (List GPos)) => centroidStep acc (poly.headD [])) (0, 0, 0)
  (jsDiv s.1 (s.2.2 : ℚ), jsDiv s.2.1 (s.2.2 : ℚ))

/-- Edge list of a ring as traversed by the `checkRing` loop of
`pointInPolygon`: pairs `(ring[i], ring[j])` with `j = i - 1` and the
first edge wrapping to the last vertex. -/
def ringEdges (ring : List GPos) : List (GPos × GPos) :=
  match ring with
  | [] => []
  | c :: _ => ring.zip (ring.getLastD c :: ring.dropLast)

/-- One edge test of the ray-casting loop.  The JavaScript `&&` short
circuit means the division is only evaluated when `yi > y ≠ yj > y`, which
forces `yj ≠ yi`. -/
def edgeCrosses (x y : ℚ) (e : GPos × GPos) : Bool :=
  let xi := e.1.1
  let yi := e.1.2
  let xj := e.2.1
  let yj := e.2.2
  if (decide (y < yi)) != (decide (y < yj)) then
    decide (x < (xj - xi) * (y - yi) / (yj - yi) + xi)
  else false

/-- `checkRing` inside `pointInPolygon`: even-odd ray casting. -/
def checkRing (x y : ℚ) (ring : List GPos) : Bool :=
  (ringEdges ring).foldl (fun inside e => if edgeCrosses x y e then !inside else inside) false

/-- `pointInPolygon` from `src/lib/geo.ts` (lines 209-262). -/
def pointInPolygon (p : Point) (g : Geo) : Bool :=
  let x := p.lng
  let y := p.lat
  match g with
  | .polygon rings =>
    if !(checkRing x y (rings.headD [])) then false
    else if (rings.drop 1).any (fun r => checkRing x y r) then false
    else true
  | .multiPolygon polys =>
    polys.any (fun poly =>
      checkRing x y (poly.headD []) && !((poly.drop 1).any (fun r => checkRing x y r)))

/-! ## `src/lib/osm-parser.ts`: the polygon assembler -/

/-- `coordsEqual` (lines 317-322): componentwise closeness below `1e-9`. -/
def coordsEqual (a b : GPos) : Bool :=
  decide (|a.1 - b.1| < 1e-9) && decide (|a.2 - b.2| < 1e-9)

/-- `ensureClosed` (lines 324-332): append the first coordinate when the
ring does not already close within epsilon. -/
def ensureClosed (ring : List GPos) : List GPos :=
  match ring with
  | [] => ring
  | [a] => [a]
  | a :: b :: rest =>
    let r := a :: b :: rest
    if !(coordsEqual a (r.getLastD a)) then r ++ [a] else r

/-- One scan of the `for (const ref of remaining)` loop inside `joinWays`:
walk the remaining refs in order; a ref with missing or under-length
geometry is dropped from the set; the first ref whose chain connects to
the ring-in-progress extends the ring (reversed if needed, matching the
four orientation cases of the source) and is removed.  Returns the
extended ring (if any) and the remaining refs after the scan. -/
def scanStep (geo : ℕ → Option (List GPos)) (ring : List GPos) :
    List ℕ → Option (List GPos) × List ℕ
  | [] => (none, [])
  | ref :: rest =>
    match geo ref with
    | none => scanStep geo ring rest
    | some coords =>
      if coords.length < 2 then scanStep geo ring rest
      else
        let ringStart := ring.headD (0, 0)
        let ringEnd := ring.getLastD (0, 0)
        let wayStart := coords.headD (0, 0)
        let wayEnd := coords.getLastD (0, 0)
        if coordsEqual ringEnd wayStart then (some (ring ++ coords.drop 1), rest)
        else if coordsEqual ringEnd wayEnd then (some (ring ++ coords.dropLast.reverse), rest)
        else if coordsEqual ringStart wayEnd then (some (coords.dropLast ++ ring), rest)
        else if coordsEqual ringStart wayStart then (some (coords.reverse.dropLast ++ ring), rest)
        else
          let s := scanStep geo ring rest
          (s.1, ref :: s.2)

/-- The inner `while (extended && remaining.size > 0)` loop of `joinWays`.
Each successful scan removes at least one ref from the remaining set, so a
fuel of `remaining.length + 1` (as supplied by `joinWaysAux`) is never
exhausted before a scan fails or the set empties; the fuel case is
unreachable at those call sites. -/
def extendLoop (geo : ℕ → Option (List GPos)) :
    ℕ → List GPos → List ℕ → List GPos × List ℕ
  | 0, ring, rem => (ring, rem)
  | _ + 1, ring, [] => (ring, [])
  | fuel + 1, ring, ref :: rest =>
    match scanStep geo ring (ref :: rest) with
    | (none, rem) => (ring, rem)
    | (some ring2, rem) => extendLoop geo fuel ring2 rem

/-- The outer `while (remaining.size > 0)` loop of `joinWays`: pop the first
remaining ref, seed a ring from its chain, extend it as far as possible,
and keep it when it has at least 4 coordinates.  Each iteration removes at
least the popped ref, so a fuel equal to the initial number of refs (as
supplied by `joinWays`) is never exhausted on a non-empty set. -/
def joinWaysAux (geo : ℕ → Option (List GPos)) :
    ℕ → List ℕ → List (List GPos)
  | 0, _ => []
  | _ + 1, [] => []
  | fuel + 1, ref :: rest =>
    match geo ref with
    | none => joinWaysAux geo fuel rest
    | some coords =>
      if coords.length < 2 then joinWaysAux geo fuel rest
      else
        let er := extendLoop geo (rest.length + 1) coords rest
        let tail := joinWaysAux geo fuel er.2
        if 4 ≤ er.1.length then er.1 :: tail else tail

/-- First-occurrence deduplication, the order in which a JavaScript `Set`
or `Map` built by insertion iterates its keys. -/
def firstUniq {α : Type} [DecidableEq α] (l : List α) : List α :=
  l.foldl (fun acc x => if x ∈ acc then acc else acc ++ [x]) []

/-- `joinWays` (lines 251-315): `new Set(wayRefs)` deduplicates the refs in
first-occurrence order, then rings are joined greedily.  The in-place
`Array.reverse` mutation in the source only touches chains that are
removed from the set in the same step, so the pure lookup is faithful for
a single call. -/
def joinWays (geo : ℕ → Option (List GPos)) (wayRefs : List ℕ) : List (List GPos) :=
  let remaining := firstUniq wayRefs
  joinWaysAux geo remaining.length remaining

/-- A relation member, as passed to `buildPolygonFromRelation`. -/
structure RelMember where
  type : String
  id : ℕ
  role : String
deriving DecidableEq

/-- `buildPolygonFromRelation` from `src/lib/osm-parser.ts` (lines 187-246):
join outer and inner member ways into rings, keep rings of length ≥ 4
closed by `ensureClosed`; one outer ring yields a `Polygon` carrying all
inner rings as holes, several outer rings yield a `MultiPolygon` whose
elements are single outer rings (inner rings dropped). -/
def buildPolygonFromRelation (members : List RelMember)
    (wayGeometries : ℕ → Option (List GPos)) : Option Geo :=
  let outerWayRefs :=
    (members.filter (fun m => m.type == "way" && (m.role == "outer" || m.role == ""))).map (·.id)
  let innerWayRefs :=
    (members.filter (fun m => m.type == "way" && m.role == "inner")).map (·.id)
  let outerRings :=
    ((joinWays wayGeometries outerWayRefs).filter (fun r => 4 ≤ r.length)).map ensureClosed
  let innerRings :=
    ((joinWays wayGeometries innerWayRefs).filter (fun r => 4 ≤ r.length)).map ensureClosed
  match outerRings with
  | [] => none
  | [o] => some (.polygon (o :: innerRings))
  | _ => some (.multiPolygon (outerRings.map (fun o => [o])))

/-- All rings of a geometry (outer rings and holes alike). -/
def ringsOfGeo : Geo → List (List GPos)
  | .polygon rings => rings
  | .multiPolygon polys => polys.flatMap id

/-! ## `src/lib/search.ts`: fuzzy scoring

JavaScript strings are `List Char`.  `normalizeText` (lowercasing, NFD
decomposition and combining-mark stripping via Unicode tables) and
`String.toLowerCase` are outside the embedding and appear as oracle
parameters of `fuzzyScore`. -/

/-- Whitespace test for the `/\s+/` regex.  JavaScript `\s` also matches
some Unicode space characters that do not occur in the scoring claims. -/
def isWsChar (c : Char) : Bool :=
  c = ' ' || c = '\t' || c = '\n' || c = '\r' || c = '\x0b' || c = '\x0c'

/-- Worker for `splitWs`; `acc` holds the current fragment reversed. -/
def splitWsGo : List Char → List Char → List (List Char)
  | [], acc => [acc.reverse]
  | c :: rest, acc =>
    if isWsChar c then acc.reverse :: splitWsGo (rest.dropWhile isWsChar) []
    else splitWsGo rest (c :: acc)
termination_by l _ => l.length
decreasing_by
  · exact Nat.lt_succ_of_le (List.dropWhile_sublist _).length_le
  · exact Nat.lt_succ_self _

/-- JavaScript `str.split(/\s+/)`: fragments between maximal whitespace
runs; a leading or trailing run contributes an empty fragment. -/
def splitWs (s : List Char) : List (List Char) :=
  splitWsGo s []

/-- JavaScript `t.startsWith(q)`. -/
def strStarts : List Char → List Char → Bool
  | _, [] => true
  | [], _ :: _ => false
  | c :: cs, d :: ds => c = d && strStarts cs ds

/-- JavaScript `t.indexOf(q)` returning `none` for `-1`; `t.includes(q)`
is `(strIdxOf q t).isSome`. -/
def strIdxOf (q : List Char) : List Char → Option ℕ
  | [] => if strStarts [] q then some 0 else none
  | c :: rest =>
    if strStarts (c :: rest) q then some 0
    else (strIdxOf q rest).map (· + 1)

/-- `generateNgrams` (lines 141-148): character n-grams of the text padded
with `n - 1` spaces on both sides, collected into a set. -/
def generateNgrams (text : List Char) (n : ℕ := 3) : Finset (List Char) :=
  let padded := List.replicate (n - 1) ' ' ++ text ++ List.replicate (n - 1) ' '
  if padded.length < n then ∅
  else ((List.range (padded.length - n + 1)).map (fun i => (padded.drop i).take n)).toFinset

/-- `ngramSimilarity` (lines 153-164): Jaccard index over n-gram sets,
computed as in the source via `|A| + |B| - |A ∩ B|`. -/
def ngramSimilarity (s1 s2 : List Char) (n : ℕ := 3) : ℚ :=
  let ngrams1 := generateNgrams s1 n
  let ngrams2 := generateNgrams s2 n
  let intersection := (ngrams1 ∩ ngrams2).card
  let union := ngrams1.card + ngrams2.card - intersection
  if union = 0 then 0 else (intersection : ℚ) / (union : ℚ)

/-- The inner `for (let j = start; j < end; j++)` search of `jaroSimilarity`:
first index `j` in `[start, start + count)` with `s2[j]` unmatched and
equal to `c`. -/
def findJAux (s2 : List Char) (flags : List Bool) (c : Char) :
    ℕ → ℕ → Option ℕ
  | 0, _ => none
  | k + 1, start =>
    if !(flags.getD start false) && (s2[start]? == some c) then some start
    else findJAux s2 flags c k (start + 1)

/-- Search window `[start, stop)` for a fresh matching character. -/
def findJ (s2 : List Char) (flags : List Bool) (c : Char) (start stop : ℕ) : Option ℕ :=
  findJAux s2 flags c (stop - start) start

/-- The match-finding pass of `jaroSimilarity` over the indexed characters
of `s1`: returns the final `s2Matches` flags and the matched characters of
`s1` in order. -/
def jaroScan (s2 : List Char) (w : ℕ) :
    List (ℕ × Char) → List Bool → List Bool × List Char
  | [], flags => (flags, [])
  | (i, c) :: rest, flags =>
    match findJ s2 flags c (i - w) (min (i + w + 1) s2.length) with
    | some j =>
      let s := jaroScan s2 w rest (flags.set j true)
      (s.1, c :: s.2)
    | none => jaroScan s2 w rest flags

/-- `jaroSimilarity` from `src/lib/search.ts` (lines 64-111).  The
transposition count pairs the matched characters of `s1` with the matched
characters of `s2` in order, exactly as the two-pointer walk of the
source does. -/
def jaroSimilarity (s1 s2 : List Char) : ℚ :=
  if s1 = s2 then 1
  else if s1.length = 0 ∨ s2.length = 0 then 0
  else
    let matchWindow := max s1.length s2.length / 2 - 1
    let scan := jaroScan s2 matchWindow s1.enum (List.replicate s2.length false)
    let m1 := scan.2
    let matchCount := m1.length
    if matchCount = 0 then 0
    else
      let m2 := ((s2.zip scan.1).filter (fun p => p.2)).map (fun p => p.1)
      let transpositions := ((m1.zip m2).filter (fun p => p.1 != p.2)).length
      ((matchCount : ℚ) / (s1.length : ℚ) + (matchCount : ℚ) / (s2.length : ℚ) +
        ((matchCount : ℚ) - (transpositions : ℚ) / 2) / (matchCount : ℚ)) / 3

/-- Common-prefix length capped at `cap`, the `for` loop of
`jaroWinklerSimilarity`. -/
def commonPreLen : List Char → List Char → ℕ → ℕ
  | c :: cs, d :: ds, cap + 1 => if c = d then commonPreLen cs ds cap + 1 else 0
  | _, _, _ => 0

/-- `jaroWinklerSimilarity` (lines 117-136): Jaro plus a bonus for a common
prefix of up to 4 characters. -/
def jaroWinklerSimilarity (s1 s2 : List Char) (prefixScale : ℚ := 0.1) : ℚ :=
  let jaro := jaroSimilarity s1 s2
  let maxPre := min 4 (min s1.length s2.length)
  let prefixLength := commonPreLen s1 s2 maxPre
  jaro + (prefixLength : ℚ) * prefixScale * (1 - jaro)

/-- The final per-word loop of `fuzzyScore`: first word scoring at least
0.85 under Jaro-Winkler wins, else 0. -/
def wordJWLoop (q : List Char) : List (List Char) → ℚ
  | [] => 0
  | w :: ws =>
    let wordJW := jaroWinklerSimilarity q w
    if 0.85 ≤ wordJW then 0.5 + (wordJW - 0.85) * 2 else wordJWLoop q ws

/-- `fuzzyScore` from `src/lib/search.ts` (lines 218-280), with the
Unicode-dependent `normalizeText` and `toLowerCase` as oracles. -/
def fuzzyScore (normalizeText toLowerCase : List Char → List Char)
    (query target : List Char) : ℚ :=
  let normalizedQuery := normalizeText query
  let normalizedTarget := normalizeText target
  if normalizedTarget = normalizedQuery then 1.0
  else if toLowerCase target = toLowerCase query then 0.99
  else if strStarts normalizedTarget normalizedQuery then
    let lengthPenalty :=
      min 0.15 (((normalizedTarget.length : ℚ) - (normalizedQuery.length : ℚ)) * 0.02)
    0.95 - lengthPenalty
  else
    let targetWords := splitWs normalizedTarget
    if targetWords.any (fun w => strStarts w normalizedQuery) then 0.85
    else
      match strIdxOf normalizedQuery normalizedTarget with
      | some position => max 0.6 (0.75 - (position : ℚ) * 0.02)
      | none =>
        let jwScore := jaroWinklerSimilarity normalizedQuery normalizedTarget
        let ngScore := ngramSimilarity normalizedQuery normalizedTarget
        let combinedFuzzy := jwScore * 0.6 + ngScore * 0.4
        if 0.65 ≤ combinedFuzzy then 0.3 + combinedFuzzy * 0.35
        else wordJWLoop normalizedQuery targetWords

/-! ## `src/db/queries.ts`: the query engine

The `areas` table joined with its `areas_rtree` entry is a `List DbRow`;
every SQL `WHERE` clause of the source becomes the corresponding filter.
The transcendental geometry helpers are supplied by a `GeoOracle`. -/

/-- The floating-point geometry helpers of `src/lib/geo.ts` that the query
engine calls: `haversineDistance`, `calculateBearing`, and the
`Math.cos(lat * π / 180)` factor inside `boundingBoxFromRadius`.  The
query-engine claims are structural in the values these return, so they are
oracle parameters. -/
structure GeoOracle where
  dist : Point → Point → ℚ
  bearingOf : Point → Point → ℚ
  cosDeg : ℚ → ℚ

structure BBox where
  minLat : ℚ
  maxLat : ℚ
  minLng : ℚ
  maxLng : ℚ
deriving DecidableEq

/-- `boundingBoxFromRadius` from `src/lib/geo.ts` (lines 89-104). -/
def boundingBoxFromRadius (O : GeoOracle) (center : Point) (radiusMeters : ℚ) : BBox :=
  let latDelta := radiusMeters / 111320
  let lngDelta := radiusMeters / (111320 * O.cosDeg center.lat)
  { minLat := center.lat - latDelta
    maxLat := center.lat + latDelta
    minLng := center.lng - lngDelta
    maxLng := center.lng + lngDelta }

/-- A row of the `areas` table (the fields the query engine reads), with
`names` already JSON-decoded and `polygon` already parsed. -/
structure AreaRow where
  id : ℕ
  osm_id : ℤ
  osm_type : String
  place_type : String
  name : String
  names : List (String × String)
  center_lat : ℚ
  center_lng : ℚ
  polygon : Option Geo
  postal_code : Option String
  country_code : String
  parent_city : Option String
  parent_municipality : Option String
deriving DecidableEq

/-- An `areas` row together with its `areas_rtree` bounding box. -/
structure DbRow where
  area : AreaRow
  box : BBox
deriving DecidableEq

/-- `AreaResult` as produced by `rowToResult`. -/
structure AreaResult where
  id : ℕ
  osm_id : ℤ
  osm_type : String
  place_type : String
  name : String
  names : List (String × String)
  center : Point
  postal_code : Option String
  country_code : String
  parent_city : Option String
  parent_municipality : Option String
  distance_meters : Option ℚ
deriving DecidableEq

/-- `rowToResult` from `src/db/queries.ts` (lines 68-86). -/
def rowToResult (row : AreaRow) (distance : Option ℚ) : AreaResult :=
  { id := row.id
    osm_id := row.osm_id
    osm_type := row.osm_type
    place_type := row.place_type
    name := row.name
    names := row.names
    center := { lat := row.center_lat, lng := row.center_lng }
    postal_code := row.postal_code
    country_code := row.country_code
    parent_city := row.parent_city
    parent_municipality := row.parent_municipality
    distance_meters := distance }

/-- The `(a.distance_meters || 0)` sort key used by the source comparators
(`undefined` becomes 0; the stored distances are rationals, so the `||`
has no other falsy case besides 0 itself). -/
def distOr0 (r : AreaResult) : ℚ :=
  r.distance_meters.getD 0

/-- `findAreasNearby` from `src/db/queries.ts` (lines 142-181): r-tree
range query on the radius bounding box, exact-distance filter, push of the
rounded distance, stable ascending sort on the stored distance, truncate
to `limit`. -/
def findAreasNearby (O : GeoOracle) (db : List DbRow) (lat lng radiusMeters : ℚ)
    (limit : ℕ := 50) : List AreaResult :=
  let bbox := boundingBoxFromRadius O { lat := lat, lng := lng } radiusMeters
  let rows := db.filter (fun r =>
    decide (bbox.minLat ≤ r.box.maxLat) && decide (r.box.minLat ≤ bbox.maxLat) &&
    decide (bbox.minLng ≤ r.box.maxLng) && decide (r.box.minLng ≤ bbox.maxLng))
  let results := rows.filterMap (fun r =>
    let distance := O.dist { lat := lat, lng := lng }
      { lat := r.area.center_lat, lng := r.area.center_lng }
    if distance ≤ radiusMeters then
      some (rowToResult r.area (some ((jsRound distance : ℤ) : ℚ)))
    else none)
  (results.mergeSort (fun a b => decide (distOr0 a ≤ distOr0 b))).take limit

/-- The match-collection phase of `findAreasContaining` (the `results`
array of lines 204-232): r-tree candidates whose box contains the point;
a candidate with a polygon is kept iff `pointInPolygon` holds, a candidate
without a polygon is kept unconditionally; either way the rounded distance
to the stored center is attached. -/
def containingMatches (O : GeoOracle) (db : List DbRow) (lat lng : ℚ) : List AreaResult :=
  let rows := db.filter (fun r =>
    decide (r.box.minLat ≤ lat) && decide (lat ≤ r.box.maxLat) &&
    decide (r.box.minLng ≤ lng) && decide (lng ≤ r.box.maxLng))
  rows.filterMap (fun r =>
    let distance := O.dist { lat := lat, lng := lng }
      { lat := r.area.center_lat, lng := r.area.center_lng }
    match r.area.polygon with
    | some poly =>
      if pointInPolygon { lat := lat, lng := lng } poly then
        some (rowToResult r.area (some ((jsRound distance : ℤ) : ℚ)))
      else none
    | none => some (rowToResult r.area (some ((jsRound distance : ℤ) : ℚ))))

/-- `findAreasContaining` from `src/db/queries.ts` (lines 186-247): keep
the collected matches whose stored distance is defined and below 500,
return them sorted ascending (truncated to `limit`) when any exist, else
fall back to a nearby search with radius 1000. -/
def findAreasContaining (O : GeoOracle) (db : List DbRow) (lat lng : ℚ)
    (limit : ℕ := 10) : List AreaResult :=
  let results := containingMatches O db lat lng
  let polygonMatches := results.filter (fun r =>
    match r.distance_meters with
    | some d => decide (d < 500)
    | none => false)
  if 0 < polygonMatches.length then
    (polygonMatches.mergeSort (fun a b => decide (distOr0 a ≤ distOr0 b))).take limit
  else
    findAreasNearby O db lat lng 1000 limit

/-- `GroupedAreaResult` (lines 35-50). -/
structure GroupedAreaResult where
  osm_id : ℤ
  osm_type : String
  place_type : String
  name : String
  names : List (String × String)
  center : Point
  postal_codes : List String
  country_code : String
  parent_city : Option String
  parent_municipality : Option String
  distance_meters : Option ℚ
deriving DecidableEq

/-- Update an existing group with a further row of the same area, mirroring
the `existing` branch of `groupAreaResults` (lines 98-113): append an
unseen postal code, keep the smallest defined distance. -/
def updateGrouped (g : GroupedAreaResult) (r : AreaResult) : GroupedAreaResult :=
  let g1 :=
    match r.postal_code with
    | some p => if p ∈ g.postal_codes then g else { g with postal_codes := g.postal_codes ++ [p] }
    | none => g
  match r.distance_meters with
  | some d =>
    match g1.distance_meters with
    | none => { g1 with distance_meters := some d }
    | some e => if d < e then { g1 with distance_meters := some d } else g1
  | none => g1

/-- Fresh group from a first row (the `else` branch of lines 114-128). -/
def mkGrouped (r : AreaResult) : GroupedAreaResult :=
  { osm_id := r.osm_id
    osm_type := r.osm_type
    place_type := r.place_type
    name := r.name
    names := r.names
    center := r.center
    postal_codes :=
      match r.postal_code with
      | some p => [p]
      | none => []
    country_code := r.country_code
    parent_city := r.parent_city
    parent_municipality := r.parent_municipality
    distance_meters := r.distance_meters }

/-- `groupAreaResults` from `src/db/queries.ts` (lines 91-137): group by
the `` `${osm_type}-${osm_id}` `` key (the pair is injective for the osm
type strings that occur) in first-insertion order, then sort ascending by
the grouped `distance_meters ?? 0`. -/
def groupAreaResults (results : List AreaResult) : List GroupedAreaResult :=
  let groups := results.foldl (fun acc r =>
    if acc.any (fun g => g.osm_type == r.osm_type && g.osm_id == r.osm_id) then
      acc.map (fun g =>
        if g.osm_type == r.osm_type && g.osm_id == r.osm_id then updateGrouped g r else g)
    else acc ++ [mkGrouped r]) ([] : List GroupedAreaResult)
  groups.mergeSort (fun a b => decide (a.distance_meters.getD 0 ≤ b.distance_meters.getD 0))

/-- `findCenterByLocation` (lines 490-500). -/
def findCenterByLocation (O : GeoOracle) (db : List DbRow) (lat lng : ℚ) :
    Option GroupedAreaResult :=
  let nearby := findAreasNearby O db lat lng 2000 5
  if nearby.length = 0 then none else (groupAreaResults nearby).head?

/-- `AdjacentAreaResult` (lines 443-464). -/
structure AdjacentAreaResult where
  osm_id : ℤ
  osm_type : String
  place_type : String
  name : String
  names : List (String × String)
  center : Point
  postal_codes : List String
  country_code : String
  parent_city : Option String
  parent_municipality : Option String
  distance_meters : ℚ
  degrees : ℚ
  direction : String
  level : ℕ
deriving DecidableEq

structure AdjacentSearchResult where
  center : GroupedAreaResult
  adjacent : List AdjacentAreaResult
deriving DecidableEq

/-- An element of the `adjacentWithDirection` array (lines 537-559). -/
structure AdjacentCand where
  area : GroupedAreaResult
  degrees : ℚ
  distance : ℚ
deriving DecidableEq

/-- The center-exclusion and direction computation of `findAdjacentAreas`
(lines 541-559): skip the center area (matched by `osm_id` and
`osm_type`), snap the oracle bearing to one of 8 sectors, carry
`distance_meters ?? 0`. -/
def adjacentWithDirection (O : GeoOracle) (center : GroupedAreaResult)
    (grouped : List GroupedAreaResult) : List AdjacentCand :=
  grouped.filterMap (fun area =>
    if area.osm_id == center.osm_id && area.osm_type == center.osm_type then none
    else
      let bearing := O.bearingOf center.center area.center
      some { area := area
             degrees := roundBearingToSector bearing 8
             distance := area.distance_meters.getD 0 })

/-- Build one output entry of `findAdjacentAreas` (lines 580-595). -/
def mkAdjEntry (a : AdjacentCand) (sector : ℚ) (level : ℕ) : AdjacentAreaResult :=
  { osm_id := a.area.osm_id
    osm_type := a.area.osm_type
    place_type := a.area.place_type
    name := a.area.name
    names := a.area.names
    center := a.area.center
    postal_codes := a.area.postal_codes
    country_code := a.area.country_code
    parent_city := a.area.parent_city
    parent_municipality := a.area.parent_municipality
    distance_meters := a.distance
    degrees := sector
    direction := bearingToCardinal sector
    level := level }

/-- One sector's contribution (lines 573-597): the candidates of that
sector sorted ascending by distance, enumerated with levels 1, 2, 3, … -/
def sectorBlock (cands : List AdjacentCand) (sector : ℚ) : List AdjacentAreaResult :=
  let areas := (cands.filter (fun a => a.degrees == sector)).mergeSort
    (fun a b => decide (a.distance ≤ b.distance))
  areas.enum.map (fun p => mkAdjEntry p.2 sector (p.1 + 1))

/-- The `adjacentResults` array before the final sort: sector blocks in
first-occurrence order of the sector keys (JavaScript `Map` iteration
order). -/
def adjacentRaw (cands : List AdjacentCand) : List AdjacentAreaResult :=
  (firstUniq (cands.map (·.degrees))).flatMap (fun sector => sectorBlock cands sector)

/-- The final comparator of `findAdjacentAreas` (lines 600-603) as a
boolean `≤`: level first, then degrees. -/
def adjLe (a b : AdjacentAreaResult) : Bool :=
  decide (a.level < b.level) || (a.level == b.level && decide (a.degrees ≤ b.degrees))

/-- `findAdjacentAreas` from `src/db/queries.ts` (lines 505-612).  The
center-resolution step routes through the SQL fuzzy search
(`searchAreasByName`) or `findCenterByLocation`; its outcome is supplied
here as the `center?` argument, so the theorems cover every resolvable
center.  The rest is embedded literally: nearby search around the center
with `limit * 3`, postal-code grouping, center exclusion, sector grouping
with per-sector levels, global `(level, degrees)` sort, truncation. -/
def findAdjacentAreas (O : GeoOracle) (db : List DbRow)
    (center? : Option GroupedAreaResult) (radius : ℚ := 5000) (limit : ℕ := 20) :
    Option AdjacentSearchResult :=
  match center? with
  | none => none
  | some center =>
    let nearby := findAreasNearby O db center.center.lat center.center.lng radius (limit * 3)
    let grouped := groupAreaResults nearby
    let cands := adjacentWithDirection O center grouped
    let adjacentResults := (adjacentRaw cands).mergeSort adjLe
    some { center := { center with distance_meters := some 0 }
           adjacent := adjacentResults.take limit }

/-! ## Claim-side predicates -/

/-- The claim C10 input class: a `Polygon` whose outer ring has at most one
coordinate, or a `MultiPolygon` all of whose outer rings do. -/
def degenerateOuter : Geo → Prop
  | .polygon rings => (rings.headD []).length ≤ 1
  | .multiPolygon polys => ∀ p ∈ polys, (p.headD []).length ≤ 1

/-- A collected match whose stored (rounded) distance is defined and below
500, i.e. the `distance_meters !== undefined && distance_meters < 500`
filter of `findAreasContaining`. -/
def withStoredLt500 (r : AreaResult) : Prop :=
  ∃ d, r.distance_meters = some d ∧ d < 500

/-- Formalization of the claim C3 phrase "polygon-based matches within
500 m": candidate rows whose r-tree box contains the point, whose polygon
contains the point, and whose rounded center distance is below 500. -/
def polygonBasedWithin500 (O : GeoOracle) (db : List DbRow) (lat lng : ℚ) : List DbRow :=
  db.filter (fun r =>
    decide (r.box.minLat ≤ lat) && decide (lat ≤ r.box.maxLat) &&
    decide (r.box.minLng ≤ lng) && decide (lng ≤ r.box.maxLng) &&
    (match r.area.polygon with
     | some poly => pointInPolygon { lat := lat, lng := lng } poly
     | none => false) &&
    decide (((jsRound (O.dist { lat := lat, lng := lng }
      { lat := r.area.center_lat, lng := r.area.center_lng }) : ℤ) : ℚ) < 500))

/-! ## Concrete fixtures for witnesses and counterexamples -/

/-- A minimal `areas` row with the given id, center latitude and polygon. -/
def mkRow (i : ℕ) (clat : ℚ) (poly : Option Geo) : AreaRow :=
  { id := i
    osm_id := (i : ℤ)
    osm_type := "node"
    place_type := "suburb"
    name := "x"
    names := []
    center_lat := clat
    center_lng := 0
    polygon := poly
    postal_code := none
    country_code := "FI"
    parent_city := none
    parent_municipality := none }

/-- An r-tree box covering every fixture query point. -/
def boxAll : BBox := ⟨-100, 100, -100, 100⟩

/-- Oracle for the C1 counterexample: two candidates 1.4 m and 0.9 m away,
both rounding to 1 m. -/
def exO1 : GeoOracle :=
  { dist := fun _ c => if c.lat == 1 then 14 / 10 else 9 / 10
    bearingOf := fun _ _ => 0
    cosDeg := fun _ => 1 }

def exDb1 : List DbRow := [⟨mkRow 1 1 none, boxAll⟩, ⟨mkRow 2 2 none, boxAll⟩]

/-- Oracle for the C2 counterexample and witness: every candidate center is
300 m from the query point. -/
def exO2 : GeoOracle :=
  { dist := fun _ _ => 300
    bearingOf := fun _ _ => 0
    cosDeg := fun _ => 1 }

/-- A polygon-less area row 300 m away under `exO2`. -/
def exRow2 : AreaRow := mkRow 7 1 none

def exDb2 : List DbRow := [⟨exRow2, boxAll⟩]

/-- A polygon far away from the origin (does not contain `(0, 0)`). -/
def farSquare : Geo := .polygon [[(10, 10), (11, 10), (11, 11), (10, 11), (10, 10)]]

/-- Oracle for the C3 counterexample: the polygon-less row (center lat 3)
is 300 m away, the polygon-bearing row (center lat 4) is 50 m away. -/
def exO3 : GeoOracle :=
  { dist := fun _ c => if c.lat == 3 then 300 else 50
    bearingOf := fun _ _ => 0
    cosDeg := fun _ => 1 }

/-- C3 fixture: a polygon-less row whose box contains the origin, and a
polygon-bearing row whose box misses the origin but overlaps the 1000 m
nearby query box. -/
def exDb3 : List DbRow :=
  [⟨mkRow 1 3 none, boxAll⟩, ⟨mkRow 2 4 (some farSquare), ⟨1 / 1000, 50, 1 / 1000, 50⟩⟩]

/-- C4 fixture center (osm id 100, not among the rows). -/
def exCenter4 : GroupedAreaResult :=
  { osm_id := 100
    osm_type := "node"
    place_type := "suburb"
    name := "c"
    names := []
    center := ⟨0, 0⟩
    postal_codes := []
    country_code := "FI"
    parent_city := none
    parent_municipality := none
    distance_meters := some 0 }

/-- C4 fixture oracle: bearings 44 and 46 (both snap to the 45 sector),
distances 300 m and 900 m. -/
def exO4 : GeoOracle :=
  { dist := fun _ c => if c.lat == 1 then 300 else 900
    bearingOf := fun _ c => if c.lat == 1 then 44 else 46
    cosDeg := fun _ => 1 }

def exDb4 : List DbRow := [⟨mkRow 1 1 none, boxAll⟩, ⟨mkRow 2 2 none, boxAll⟩]

/-- The concrete adjacent-search result of the C4 fixture. -/
def exRes4 : AdjacentSearchResult :=
  (findAdjacentAreas exO4 exDb4 (some exCenter4) 5000 20).getD ⟨exCenter4, []⟩

/-- C6 witness fixture: way geometries for a single closed outer square. -/
def exGeo6 : ℕ → Option (List GPos) :=
  fun n => if n = 1 then some [(0, 0), (1, 0), (1, 1), (0, 1), (0, 0)] else none

/-- C7 witness fixture: two disjoint closed outer triangles and one closed
inner triangle. -/
def exGeo7 : ℕ → Option (List GPos) :=
  fun n =>
    if n = 1 then some [(0, 0), (9, 0), (9, 9), (0, 0)]
    else if n = 2 then some [(20, 20), (21, 20), (21, 21), (20, 20)]
    else if n = 3 then some [(1, 1), (2, 1), (2, 2), (1, 1)] else none

/-- C7 witness fixture: relation members with two outer ways and one inner
way that all join successfully. -/
def exMembers7 : List RelMember :=
  [⟨"way", 1, "outer"⟩, ⟨"way", 2, "outer"⟩, ⟨"way", 3, "inner"⟩]

/-- C6 witness fixture: a relation with a single outer way. -/
def exMembers6 : List RelMember := [⟨"way", 1, "outer"⟩]

/-! ## Theorems -/

theorem centroidStep_of_short (acc : ℚ × ℚ × ℕ) (coords : List GPos)
    (h : coords.length ≤ 1) : centroidStep acc coords = acc := by
  match coords, h with
  | [], _ => rfl
  | [a], _ => simp [centroidStep]

theorem centroid_fold_const (polys : List (List (List GPos)))
    (h : ∀ p ∈ polys, (p.headD []).length ≤ 1) (acc : ℚ × ℚ × ℕ) :
    polys.foldl (fun acc (poly : List (List GPos)) => centroidStep acc (poly.headD [])) acc
      = acc := by
  induction polys generalizing acc with
  | nil => rfl
  | cons p ps ih =>
    rw [List.foldl_cons, centroidStep_of_short _ _ (h p (List.mem_cons_self _ _))]
    exact ih (fun q hq => h q (List.mem_cons_of_mem _ hq)) acc

/-- C10: for a Polygon whose outer ring has at most one coordinate, and for
a MultiPolygon all of whose outer rings have at most one coordinate, the
vertex count of `centroid` is zero, so both components are the `0 / 0`
division; the function returns the NaN pair rather than failing. -/
theorem C10_centroid_nan (g : Geo) (h : degenerateOuter g) :
    centroid g = (none, none) := by
  cases g with
  | polygon rings =>
    have h' : (rings.headD []).length ≤ 1 := h
    simp only [centroid, centroidStep_of_short _ _ h']
    simp [jsDiv]
  | multiPolygon polys =>
    have h' : ∀ p ∈ polys, (p.headD []).length ≤ 1 := h
    simp only [centroid, centroid_fold_const polys h']
    simp [jsDiv]

theorem C10_centroid_nan_witness :
    degenerateOuter (.polygon [[(1, 2)]]) ∧ centroid (.polygon [[(1, 2)]]) = (none, none) := by
  have hd : degenerateOuter (.polygon [[((1 : ℚ), (2 : ℚ))]]) := by
    show ([[((1 : ℚ), (2 : ℚ))]].headD []).length ≤ 1
    simp
  exact ⟨hd, C10_centroid_nan _ hd⟩

/-- C7: whenever `buildPolygonFromRelation` produces a MultiPolygon, every
constituent polygon is a single outer ring and carries no holes. -/
theorem C7_multipolygon_no_holes (members : List RelMember)
    (geo : ℕ → Option (List GPos)) (polys : List (List (List GPos)))
    (h : buildPolygonFromRelation members geo = some (.multiPolygon polys)) :
    ∀ p ∈ polys, ∃ outer, p = [outer] := by
  simp only [buildPolygonFromRelation] at h
  split at h
  · exact absurd h (by simp)
  · simp at h
  · simp only [Option.some.injEq, Geo.multiPolygon.injEq] at h
    subst h
    intro p hp
    rw [List.mem_map] at hp
    obtain ⟨o, -, rfl⟩ := hp
    exact ⟨o, rfl⟩

theorem C7_multipolygon_no_holes_witness :
    ∃ outer, ([[((0 : ℚ), (0 : ℚ)), (9, 0), (9, 9), (0, 0)]] : List (List GPos)) = [outer] :=
  C7_multipolygon_no_holes exMembers7 exGeo7
    [[[((0 : ℚ), (0 : ℚ)), (9, 0), (9, 9), (0, 0)]],
     [[((20 : ℚ), (20 : ℚ)), (21, 20), (21, 21), (20, 20)]]]
    (by with_unfolding_all decide) _ (by simp)

theorem findJAux_none (s2 : List Char) (flags : List Bool) (c : Char) :
    ∀ k start, (∀ j, start ≤ j → j < start + k → s2[j]? ≠ some c) →
    findJAux s2 flags c k start = none := by
  intro k
  induction k with
  | zero => intro start _; rfl
  | succ k ih =>
    intro start h
    unfold findJAux
    have hs : s2[start]? ≠ some c := h start le_rfl (by omega)
    have hb : (s2[start]? == some c) = false := by
      simpa using hs
    rw [hb]
    simp only [Bool.and_false, Bool.false_eq_true, if_false]
    exact ih (start + 1) (fun j hj1 hj2 => h j (by omega) (by omega))

theorem jaroScan_no_matches (s2 : List Char) (w : ℕ) (l : List (ℕ × Char))
    (h : ∀ p ∈ l, ∀ j, p.1 - w ≤ j → j < min (p.1 + w + 1) s2.length → s2[j]? ≠ some p.2) :
    ∀ flags, (jaroScan s2 w l flags).2 = [] := by
  induction l with
  | nil => intro flags; rfl
  | cons p rest ih =>
    intro flags
    obtain ⟨i, c⟩ := p
    have hf : findJ s2 flags c (i - w) (min (i + w + 1) s2.length) = none := by
      unfold findJ
      apply findJAux_none
      intro j hj1 hj2
      exact h (i, c) (List.mem_cons_self _ _) j hj1 (by omega)
    unfold jaroScan
    rw [hf]
    exact ih (fun q hq => h q (List.mem_cons_of_mem _ hq)) flags

/-- C9 (amended): `jaroSimilarity` returns 1 on identical strings
(including two empty strings); on non-identical strings it returns 0 when
either string is empty, and also when no character of `s1` matches a
character of `s2` inside the match window
`floor(max(len1, len2) / 2) - 1` (clamped at 0). -/
theorem C9_jaro_amended (s1 s2 : List Char) :
    (s1 = s2 → jaroSimilarity s1 s2 = 1) ∧
    (s1 ≠ s2 → s1.length = 0 ∨ s2.length = 0 → jaroSimilarity s1 s2 = 0) ∧
    (s1 ≠ s2 →
      (∀ i ∈ List.range s1.length, ∀ j ∈ List.range s2.length,
        i - (max s1.length s2.length / 2 - 1) ≤ j →
        j < i + (max s1.length s2.length / 2 - 1) + 1 →
        s1[i]? ≠ s2[j]?) →
      jaroSimilarity s1 s2 = 0) := by
  refine ⟨fun h => by simp [jaroSimilarity, h],
    fun hne hlen => by unfold jaroSimilarity; rw [if_neg hne, if_pos hlen], ?_⟩
  intro hne hwin
  have hscan : (jaroScan s2 (max s1.length s2.length / 2 - 1) s1.enum
      (List.replicate s2.length false)).2 = [] := by
    apply jaroScan_no_matches
    intro p hp j hj1 hj2
    have hg : s1[p.1]? = some p.2 := List.mem_enum_iff_getElem?.mp hp
    have hi : p.1 ∈ List.range s1.length := by
      rw [List.mem_range]
      exact (List.getElem?_eq_some_iff.mp hg).1
    have hj : j ∈ List.range s2.length := by
      rw [List.mem_range]; omega
    intro heq
    exact hwin p.1 hi j hj hj1 (by omega) (by rw [hg, heq])
  by_cases hlen : s1.length = 0 ∨ s2.length = 0
  · unfold jaroSimilarity
    rw [if_neg hne, if_pos hlen]
  · unfold jaroSimilarity
    rw [if_neg hne, if_neg hlen]
    simp [hscan]

theorem C9_jaro_amended_witness : jaroSimilarity ['a'] ['b'] = 0 :=
  (C9_jaro_amended ['a'] ['b']).2.2 (by decide) (by decide)

/-- C9 counterexample: the claim requires a 0 for every pair with an empty
string, but on two empty (hence identical) strings the `s1 === s2` branch
fires first and the function returns 1. -/
theorem C9_jaro_counterexample :
    jaroSimilarity ([] : List Char) [] = 1 ∧ (1 : ℚ) ≠ 0 :=
  ⟨rfl, one_ne_zero⟩

theorem coordsEqual_close {a b : GPos} (h : coordsEqual a b = true) :
    |a.1 - b.1| ≤ 1e-9 ∧ |a.2 - b.2| ≤ 1e-9 := by
  simp only [coordsEqual, Bool.and_eq_true, decide_eq_true_eq] at h
  exact ⟨le_of_lt h.1, le_of_lt h.2⟩

theorem ensureClosed_length (ring : List GPos) :
    ring.length ≤ (ensureClosed ring).length := by
  match ring with
  | [] => simp [ensureClosed]
  | [a] => simp [ensureClosed]
  | a :: b :: rest =>
    simp only [ensureClosed]
    split <;> simp

theorem ensureClosed_closed (ring : List GPos) (h : 2 ≤ ring.length) :
    ∀ x ∈ (ensureClosed ring).head?, ∀ y ∈ (ensureClosed ring).getLast?,
      |x.1 - y.1| ≤ 1e-9 ∧ |x.2 - y.2| ≤ 1e-9 := by
  match ring with
  | [] => simp at h
  | [a] => simp at h
  | a :: b :: rest =>
    simp only [ensureClosed]
    split
    · -- the ring did not close within epsilon: the head is appended
      intro x hx y hy
      rw [List.getLast?_concat, Option.mem_some_iff] at hy
      rw [List.cons_append, List.head?_cons, Option.mem_some_iff] at hx
      subst hx; subst hy
      norm_num
    · -- the ring closes within epsilon already
      next hc =>
      have hcoords : coordsEqual a ((a :: b :: rest).getLastD a) = true := by
        revert hc
        cases coordsEqual a ((a :: b :: rest).getLastD a) <;> simp
      intro x hx y hy
      rw [List.head?_cons, Option.mem_some_iff] at hx
      subst hx
      have hres : (a :: b :: rest).getLast? = some ((a :: b :: rest).getLastD a) := by
        rw [List.getLastD_eq_getLast?]
        cases hg : (a :: b :: rest).getLast? with
        | none => simp at hg
        | some z => rfl
      rw [hres, Option.mem_some_iff] at hy
      subst hy
      exact coordsEqual_close hcoords

theorem mem_assembled_ok (l : List (List GPos)) (ring : List GPos)
    (h : ring ∈ (l.filter (fun r => 4 ≤ r.length)).map ensureClosed) :
    4 ≤ ring.length ∧
      ∀ x ∈ ring.head?, ∀ y ∈ ring.getLast?,
        |x.1 - y.1| ≤ 1e-9 ∧ |x.2 - y.2| ≤ 1e-9 := by
  rw [List.mem_map] at h
  obtain ⟨r, hr, rfl⟩ := h
  rw [List.mem_filter] at hr
  have h4 : 4 ≤ r.length := by simpa using hr.2
  exact ⟨le_trans h4 (ensureClosed_length r), ensureClosed_closed r (by omega)⟩

/-- C6: every ring of a Polygon or MultiPolygon produced by
`buildPolygonFromRelation` has at least 4 coordinates, and its first and
last coordinates agree within `1e-9` degrees in each component. -/
theorem C6_assembled_rings_closed (members : List RelMember)
    (geo : ℕ → Option (List GPos)) (g : Geo)
    (h : buildPolygonFromRelation members geo = some g) :
    ∀ ring ∈ ringsOfGeo g, 4 ≤ ring.length ∧
      ∀ x ∈ ring.head?, ∀ y ∈ ring.getLast?,
        |x.1 - y.1| ≤ 1e-9 ∧ |x.2 - y.2| ≤ 1e-9 := by
  simp only [buildPolygonFromRelation] at h
  split at h
  · exact absurd h (by simp)
  · rename_i heq
    rw [Option.some_inj] at h
    subst h
    intro ring hr
    simp only [ringsOfGeo] at hr
    rcases List.mem_cons.mp hr with rfl | hmem
    · exact mem_assembled_ok _ _ (heq.symm ▸ List.mem_singleton_self ring)
    · exact mem_assembled_ok _ _ hmem
  · rw [Option.some_inj] at h
    subst h
    intro ring hr
    simp only [ringsOfGeo, List.mem_flatMap] at hr
    obtain ⟨blk, hblk, hrb⟩ := hr
    rw [List.mem_map] at hblk
    obtain ⟨o, ho, rfl⟩ := hblk
    simp only [id_eq, List.mem_singleton] at hrb
    subst hrb
    exact mem_assembled_ok _ _ ho

theorem mem_of_mem_take_mergeSort {α : Type} (le : α → α → Bool) {x : α} {l : List α}
    {n : ℕ} (h : x ∈ (l.mergeSort le).take n) : x ∈ l :=
  (l.mergeSort_perm le).mem_iff.mp ((List.take_sublist n _).subset h)

theorem sorted_take_mergeSort_distOr0 (l : List AreaResult) (n : ℕ) :
    List.Sorted (fun a b : AreaResult => distOr0 a ≤ distOr0 b)
      ((l.mergeSort (fun a b => decide (distOr0 a ≤ distOr0 b))).take n) := by
  have hs := @List.sorted_mergeSort AreaResult
    (fun a b : AreaResult => decide (distOr0 a ≤ distOr0 b))
    (fun a b c hab hbc => by
      rw [decide_eq_true_eq] at *
      exact le_trans hab hbc)
    (fun a b => by
      rw [Bool.or_eq_true, decide_eq_true_eq, decide_eq_true_eq]
      exact le_total _ _) l
  exact (List.Pairwise.sublist (List.take_sublist n _) hs).imp of_decide_eq_true

/-- C1 (amended): every result of `findAreasNearby` has exact distance at
most `radiusMeters` and carries the rounded distance in
`distance_meters`; the list is sorted non-decreasing by that stored
(rounded) distance, not by the exact distance; and it has at most `limit`
entries. -/
theorem C1_nearby_amended (O : GeoOracle) (db : List DbRow) (lat lng radiusMeters : ℚ)
    (limit : ℕ) :
    (∀ r ∈ findAreasNearby O db lat lng radiusMeters limit,
        O.dist { lat := lat, lng := lng } r.center ≤ radiusMeters ∧
        r.distance_meters =
          some ((jsRound (O.dist { lat := lat, lng := lng } r.center) : ℤ) : ℚ)) ∧
    List.Sorted (fun a b : AreaResult => distOr0 a ≤ distOr0 b)
      (findAreasNearby O db lat lng radiusMeters limit) ∧
    (findAreasNearby O db lat lng radiusMeters limit).length ≤ limit := by
  refine ⟨?_, ?_, ?_⟩
  · intro r hr
    unfold findAreasNearby at hr
    have hr2 := mem_of_mem_take_mergeSort _ hr
    rw [List.mem_filterMap] at hr2
    obtain ⟨row, _, heq⟩ := hr2
    by_cases hd : O.dist { lat := lat, lng := lng }
        { lat := row.area.center_lat, lng := row.area.center_lng } ≤ radiusMeters
    · rw [if_pos hd, Option.some_inj] at heq
      subst heq
      exact ⟨by simpa [rowToResult] using hd, by simp [rowToResult]⟩
    · rw [if_neg hd] at heq
      exact absurd heq (by simp)
  · exact sorted_take_mergeSort_distOr0 _ _
  · show ((_ : List AreaResult).take limit).length ≤ limit
    rw [List.length_take]
    exact min_le_left _ _

/-- C1 counterexample: two candidates 1.4 m and 0.9 m from the center both
round to a stored distance of 1 m; the stable sort keeps candidate order,
so the returned list is not sorted by the exact haversine distance. -/
theorem C1_nearby_counterexample :
    ¬ List.Sorted (· ≤ ·)
      ((findAreasNearby exO1 exDb1 0 0 10 50).map
        (fun r => exO1.dist { lat := 0, lng := 0 } r.center)) := by
  with_unfolding_all decide

theorem C1_nearby_amended_witness :
    List.Sorted (fun a b : AreaResult => distOr0 a ≤ distOr0 b)
      (findAreasNearby exO1 exDb1 0 0 10 50) ∧
    (findAreasNearby exO1 exDb1 0 0 10 50).length ≤ 50 :=
  ⟨(C1_nearby_amended exO1 exDb1 0 0 10 50).2.1,
   (C1_nearby_amended exO1 exDb1 0 0 10 50).2.2⟩

/-- C2 (amended): a candidate without a polygon whose r-tree box contains
the query point is always collected as a match (with its rounded center
distance attached), regardless of how far its center is from the point:
the source has no 100 m proximity rule. -/
theorem C2_containing_proxy_amended (O : GeoOracle) (db : List DbRow) (lat lng : ℚ)
    (r : DbRow) (hmem : r ∈ db) (hpoly : r.area.polygon = none)
    (hbox : r.box.minLat ≤ lat ∧ lat ≤ r.box.maxLat ∧
      r.box.minLng ≤ lng ∧ lng ≤ r.box.maxLng) :
    rowToResult r.area
        (some ((jsRound (O.dist { lat := lat, lng := lng }
          { lat := r.area.center_lat, lng := r.area.center_lng }) : ℤ) : ℚ))
      ∈ containingMatches O db lat lng := by
  unfold containingMatches
  rw [List.mem_filterMap]
  refine ⟨r, ?_, ?_⟩
  · rw [List.mem_filter]
    exact ⟨hmem, by simp [hbox.1, hbox.2.1, hbox.2.2.1, hbox.2.2.2]⟩
  · simp [hpoly]

/-- C2 counterexample: under `exO2` the polygon-less row `exRow2` is 300 m
from the query point (more than 100 m), yet it is collected as a match and
returned by the containing query. -/
theorem C2_containing_proxy_counterexample :
    exRow2.polygon = none ∧
    (100 : ℚ) < exO2.dist { lat := 0, lng := 0 }
      { lat := exRow2.center_lat, lng := exRow2.center_lng } ∧
    rowToResult exRow2 (some 300) ∈ containingMatches exO2 exDb2 0 0 ∧
    rowToResult exRow2 (some 300) ∈ findAreasContaining exO2 exDb2 0 0 10 := by
  with_unfolding_all decide

theorem C2_containing_proxy_amended_witness :
    rowToResult exRow2
        (some ((jsRound (exO2.dist { lat := 0, lng := 0 }
          { lat := exRow2.center_lat, lng := exRow2.center_lng }) : ℤ) : ℚ))
      ∈ containingMatches exO2 exDb2 0 0 :=
  C2_containing_proxy_amended exO2 exDb2 0 0 ⟨exRow2, boxAll⟩
    (by simp [exDb2]) rfl (by norm_num [boxAll])

theorem withStoredLt500_iff (r : AreaResult) :
    (match r.distance_meters with
      | some d => decide (d < 500)
      | none => false) = true ↔ withStoredLt500 r := by
  unfold withStoredLt500
  cases r.distance_meters <;> simp

/-- C3 (amended): the 500 m cutoff of `findAreasContaining` applies to all
collected matches, polygon-based and polygon-less alike: when no match
has stored distance below 500 the function falls back to
`findAreasNearby` with radius 1000 and the same limit; otherwise it
returns exactly the matches with stored distance below 500, sorted
ascending by that distance and truncated to `limit`. -/
theorem C3_containing_fallback_amended (O : GeoOracle) (db : List DbRow)
    (lat lng : ℚ) (limit : ℕ) :
    ((∀ r ∈ containingMatches O db lat lng, ¬ withStoredLt500 r) →
      findAreasContaining O db lat lng limit = findAreasNearby O db lat lng 1000 limit) ∧
    ((∃ r ∈ containingMatches O db lat lng, withStoredLt500 r) →
      (∀ r ∈ findAreasContaining O db lat lng limit, withStoredLt500 r) ∧
      List.Sorted (fun a b : AreaResult => distOr0 a ≤ distOr0 b)
        (findAreasContaining O db lat lng limit) ∧
      (findAreasContaining O db lat lng limit).length ≤ limit) := by
  constructor
  · intro hno
    have hfil : (containingMatches O db lat lng).filter
        (fun r => match r.distance_meters with
          | some d => decide (d < 500)
          | none => false) = [] := by
      rw [List.filter_eq_nil_iff]
      intro a ha hpa
      exact hno a ha ((withStoredLt500_iff a).mp hpa)
    simp only [findAreasContaining]
    rw [hfil]
    simp
  · rintro ⟨r0, hr0, h500⟩
    have hr0f : r0 ∈ (containingMatches O db lat lng).filter
        (fun r => match r.distance_meters with
          | some d => decide (d < 500)
          | none => false) :=
      List.mem_filter.mpr ⟨hr0, (withStoredLt500_iff r0).mpr h500⟩
    have hpos : 0 < ((containingMatches O db lat lng).filter
        (fun r => match r.distance_meters with
          | some d => decide (d < 500)
          | none => false)).length :=
      List.length_pos.mpr (List.ne_nil_of_mem hr0f)
    refine ⟨?_, ?_, ?_⟩
    · intro r hr
      simp only [findAreasContaining] at hr
      rw [if_pos hpos] at hr
      have := mem_of_mem_take_mergeSort _ hr
      exact (withStoredLt500_iff r).mp (List.mem_filter.mp this).2
    · simp only [findAreasContaining]
      rw [if_pos hpos]
      exact sorted_take_mergeSort_distOr0 _ _
    · simp only [findAreasContaining]
      rw [if_pos hpos, List.length_take]
      exact min_le_left _ _

/-- C3 counterexample: a polygon-less match 300 m away (no polygon-based
match at all within 500 m) makes the containing query return that match,
whereas the claim mandates the 1000 m nearby fallback, which here returns
a different list. -/
theorem C3_containing_fallback_counterexample :
    polygonBasedWithin500 exO3 exDb3 0 0 = [] ∧
    findAreasContaining exO3 exDb3 0 0 10 ≠ findAreasNearby exO3 exDb3 0 0 1000 10 := by
  with_unfolding_all decide

theorem C3_containing_fallback_amended_witness :
    List.Sorted (fun a b : AreaResult => distOr0 a ≤ distOr0 b)
      (findAreasContaining exO2 exDb2 0 0 10) ∧
    (findAreasContaining exO2 exDb2 0 0 10).length ≤ 10 := by
  have h := (C3_containing_fallback_amended exO2 exDb2 0 0 10).2
    ⟨rowToResult exRow2 (some 300), by with_unfolding_all decide,
      ⟨300, rfl, by norm_num⟩⟩
  exact ⟨h.2.1, h.2.2⟩

theorem jsMod_bounds (a m : ℚ) (ha : 0 ≤ a) (hm : 0 < m) :
    0 ≤ jsMod a m ∧ jsMod a m < m := by
  unfold jsMod jsTrunc
  rw [if_pos (div_nonneg ha hm.le)]
  have hfl : (⌊a / m⌋ : ℚ) ≤ a / m := Int.floor_le _
  have hfu : a / m < ⌊a / m⌋ + 1 := Int.lt_floor_add_one _
  have hma : m * (a / m) = a := by field_simp
  constructor
  · nlinarith
  · nlinarith

theorem jsMod_eq_self (a m : ℚ) (ha : 0 ≤ a) (ham : a < m) (hm : 0 < m) :
    jsMod a m = a := by
  unfold jsMod jsTrunc
  rw [if_pos (div_nonneg ha hm.le)]
  have h0 : ⌊a / m⌋ = 0 := by
    rw [Int.floor_eq_zero_iff]
    exact ⟨div_nonneg ha hm.le, (div_lt_one hm).mpr ham⟩
  rw [h0]
  push_cast
  ring

/-- C5: for any bearing in `[0, 360)`, `roundBearingToSector` with 8
sectors computes `floor(((bearing + 22.5) mod 360) / 45) * 45`, the result
is one of the 8 sector values, and `bearingToCardinal` maps it to the
element at index `round(sector / 45) mod 8` of the direction list. -/
theorem C5_sector_cardinal (b : ℚ) (h0 : 0 ≤ b) (_h1 : b < 360) :
    roundBearingToSector b 8 = (⌊(jsMod (b + 45 / 2) 360) / 45⌋ : ℚ) * 45 ∧
    roundBearingToSector b 8 ∈ ([0, 45, 90, 135, 180, 225, 270, 315] : List ℚ) ∧
    bearingToCardinal (roundBearingToSector b 8) =
      (["N", "NE", "E", "SE", "S", "SW", "W", "NW"].getD
        ((jsRound (roundBearingToSector b 8 / 45)).toNat % 8) "N") := by
  have hb : 0 ≤ b + 45 / 2 := by linarith
  obtain ⟨hm0, hm1⟩ := jsMod_bounds (b + 45 / 2) 360 hb (by norm_num)
  set adj := jsMod (b + 45 / 2) 360 with hadj
  set i : ℤ := ⌊adj / 45⌋ with hidef
  have hi0 : 0 ≤ i := Int.floor_nonneg.mpr (by positivity)
  have hi1 : i < 8 := by
    rw [hidef, Int.floor_lt]
    push_cast
    rw [div_lt_iff₀ (by norm_num : (0 : ℚ) < 45)]
    linarith
  have hic : (i : ℚ) ≤ 7 := by exact_mod_cast Int.lt_add_one_iff.mp hi1
  have hic0 : (0 : ℚ) ≤ (i : ℚ) := by exact_mod_cast hi0
  have hsec : roundBearingToSector b 8 = (i : ℚ) * 45 := by
    unfold roundBearingToSector
    have h8 : (360 : ℚ) / ((8 : ℕ) : ℚ) = 45 := by norm_num
    rw [h8]
    show jsMod ((⌊jsMod (b + 45 / 2) 360 / 45⌋ : ℚ) * 45) 360 = (i : ℚ) * 45
    rw [← hadj, ← hidef]
    exact jsMod_eq_self _ _ (by nlinarith) (by nlinarith) (by norm_num)
  refine ⟨by rw [hsec], ?_, ?_⟩
  · rw [hsec]
    interval_cases i <;> norm_num
  · rw [hsec]
    interval_cases i <;> with_unfolding_all decide

theorem C5_sector_cardinal_witness :
    roundBearingToSector 100 8 ∈ ([0, 45, 90, 135, 180, 225, 270, 315] : List ℚ) :=
  (C5_sector_cardinal 100 (by norm_num) (by norm_num)).2.1

theorem jaroScan_len_le (s2 : List Char) (w : ℕ) (l : List (ℕ × Char)) (flags : List Bool) :
    (jaroScan s2 w l flags).2.length ≤ l.length := by
  induction l generalizing flags with
  | nil => simp [jaroScan]
  | cons p rest ih =>
    obtain ⟨i, c⟩ := p
    unfold jaroScan
    cases hf : findJ s2 flags c (i - w) (min (i + w + 1) s2.length) with
    | none => exact le_trans (ih flags) (by simp)
    | some j => simpa using ih (flags.set j true)

theorem findJAux_some (s2 : List Char) (flags : List Bool) (c : Char) :
    ∀ k start j, findJAux s2 flags c k start = some j →
      flags.getD j false = false ∧ s2[j]? = some c := by
  intro k
  induction k with
  | zero => intro start j h; exact absurd h (by simp [findJAux])
  | succ k ih =>
    intro start j h
    unfold findJAux at h
    by_cases hc : (!(flags.getD start false) && (s2[start]? == some c)) = true
    · rw [if_pos hc, Option.some_inj] at h
      subst h
      simp only [Bool.and_eq_true, Bool.not_eq_true'] at hc
      exact ⟨hc.1, by simpa using hc.2⟩
    · rw [if_neg hc] at h
      exact ih (start + 1) j h

theorem countTrue_set (flags : List Bool) (j : ℕ) (hj : j < flags.length)
    (hf : flags.getD j false = false) :
    ((flags.set j true).filter (fun b => b)).length
      = (flags.filter (fun b => b)).length + 1 := by
  induction flags generalizing j with
  | nil => simp at hj
  | cons b bs ih =>
    cases j with
    | zero =>
      simp only [List.getD_cons_zero] at hf
      subst hf
      simp [List.set]
    | succ j =>
      simp only [List.set]
      cases b
      · simpa using ih j (by simpa using hj) (by simpa using hf)
      · simpa using ih j (by simpa using hj) (by simpa using hf)

theorem jaroScan_flags (s2 : List Char) (w : ℕ) (l : List (ℕ × Char)) :
    ∀ flags, flags.length = s2.length →
      (jaroScan s2 w l flags).1.length = flags.length ∧
      ((jaroScan s2 w l flags).1.filter (fun b => b)).length =
        (flags.filter (fun b => b)).length + (jaroScan s2 w l flags).2.length := by
  induction l with
  | nil => intro flags _; simp [jaroScan]
  | cons p rest ih =>
    intro flags hlen
    obtain ⟨i, c⟩ := p
    unfold jaroScan
    cases hf : findJ s2 flags c (i - w) (min (i + w + 1) s2.length) with
    | none => simpa using ih flags hlen
    | some j =>
      unfold findJ at hf
      have hj := findJAux_some s2 flags c _ _ j hf
      have hjlen : j < s2.length := (List.getElem?_eq_some_iff.mp hj.2).1
      have hjflags : j < flags.length := by omega
      have hsetlen : (flags.set j true).length = flags.length := List.length_set _ _ _
      obtain ⟨ih1, ih2⟩ := ih (flags.set j true) (by rw [hsetlen, hlen])
      have hcount := countTrue_set flags j hjflags hj.1
      refine ⟨by simpa [hsetlen] using ih1, ?_⟩
      simp only [List.length_cons]
      rw [ih2, hcount]
      omega

theorem zip_filter_snd_length (s2 : List Char) (flags : List Bool)
    (h : flags.length = s2.length) :
    (((s2.zip flags).filter (fun p => p.2)).map (fun p => p.1)).length =
      (flags.filter (fun b => b)).length := by
  rw [List.length_map]
  induction s2 generalizing flags with
  | nil =>
    cases flags with
    | nil => simp
    | cons => simp at h
  | cons c cs ih =>
    cases flags with
    | nil => simp at h
    | cons b bs =>
      have h' : bs.length = cs.length := by simpa using h
      cases b <;> simp [List.zip_cons_cons, ih bs h']

theorem jaro_bounds (s1 s2 : List Char) :
    0 ≤ jaroSimilarity s1 s2 ∧ jaroSimilarity s1 s2 ≤ 1 := by
  have harith : ∀ M T L1 L2 : ℕ, 1 ≤ M → M ≤ L1 → M ≤ L2 → T ≤ M →
      0 ≤ ((M : ℚ) / (L1 : ℚ) + (M : ℚ) / (L2 : ℚ)
        + ((M : ℚ) - (T : ℚ) / 2) / (M : ℚ)) / 3 ∧
      ((M : ℚ) / (L1 : ℚ) + (M : ℚ) / (L2 : ℚ)
        + ((M : ℚ) - (T : ℚ) / 2) / (M : ℚ)) / 3 ≤ 1 := by
    intro M T L1 L2 h1 h2 h3 h4
    have hM : (0 : ℚ) < M := by exact_mod_cast h1
    have hML1 : (M : ℚ) ≤ L1 := by exact_mod_cast h2
    have hML2 : (M : ℚ) ≤ L2 := by exact_mod_cast h3
    have hTM : (T : ℚ) ≤ M := by exact_mod_cast h4
    have hT0 : (0 : ℚ) ≤ T := by positivity
    have hL1 : (0 : ℚ) < L1 := lt_of_lt_of_le hM hML1
    have hL2 : (0 : ℚ) < L2 := lt_of_lt_of_le hM hML2
    have c1 : (M : ℚ) / L1 ≤ 1 := (div_le_one hL1).mpr hML1
    have c1' : (0 : ℚ) ≤ (M : ℚ) / L1 := by positivity
    have c2 : (M : ℚ) / L2 ≤ 1 := (div_le_one hL2).mpr hML2
    have c2' : (0 : ℚ) ≤ (M : ℚ) / L2 := by positivity
    have c3 : ((M : ℚ) - (T : ℚ) / 2) / M ≤ 1 := (div_le_one hM).mpr (by linarith)
    have c3' : (0 : ℚ) ≤ ((M : ℚ) - (T : ℚ) / 2) / M :=
      div_nonneg (by linarith) hM.le
    constructor <;> linarith
  unfold jaroSimilarity
  by_cases h1 : s1 = s2
  · rw [if_pos h1]; norm_num
  rw [if_neg h1]
  by_cases h2 : s1.length = 0 ∨ s2.length = 0
  · rw [if_pos h2]; norm_num
  rw [if_neg h2]
  by_cases h3 : (jaroScan s2 (max s1.length s2.length / 2 - 1) s1.enum
      (List.replicate s2.length false)).2.length = 0
  · rw [if_pos h3]; norm_num
  rw [if_neg h3]
  push_neg at h2
  apply harith
  · omega
  · simpa [List.enum_length] using
      jaroScan_len_le s2 (max s1.length s2.length / 2 - 1) s1.enum
        (List.replicate s2.length false)
  · obtain ⟨hf1, hf2⟩ := jaroScan_flags s2 (max s1.length s2.length / 2 - 1) s1.enum
      (List.replicate s2.length false) (by simp)
    have hc0 : ((List.replicate s2.length false).filter (fun b => b)).length = 0 := by
      simp
    have hrep : (List.replicate s2.length false).length = s2.length :=
      List.length_replicate _ _
    have hle := List.length_filter_le (fun b => b)
      (jaroScan s2 (max s1.length s2.length / 2 - 1) s1.enum
        (List.replicate s2.length false)).1
    omega
  · exact le_trans (List.length_filter_le _ _)
      (by rw [List.length_zip]; exact min_le_left _ _)

theorem commonPreLen_le (xs ys : List Char) (cap : ℕ) : commonPreLen xs ys cap ≤ cap := by
  induction cap generalizing xs ys with
  | zero => cases xs <;> cases ys <;> simp [commonPreLen]
  | succ cap ih =>
    cases xs with
    | nil => simp [commonPreLen]
    | cons c cs =>
      cases ys with
      | nil => simp [commonPreLen]
      | cons d ds =>
        by_cases hcd : c = d
        · simp only [commonPreLen, if_pos hcd]
          exact Nat.succ_le_succ (ih cs ds)
        · simp [commonPreLen, hcd]

theorem jw_bounds (s1 s2 : List Char) :
    0 ≤ jaroWinklerSimilarity s1 s2 ∧ jaroWinklerSimilarity s1 s2 ≤ 1 := by
  obtain ⟨hj0, hj1⟩ := jaro_bounds s1 s2
  unfold jaroWinklerSimilarity
  have hple : commonPreLen s1 s2 (min 4 (min s1.length s2.length)) ≤ 4 :=
    le_trans (commonPreLen_le _ _ _) (min_le_left _ _)
  have hp0 : (0 : ℚ) ≤ (commonPreLen s1 s2 (min 4 (min s1.length s2.length)) : ℚ) := by
    positivity
  have hp4 : ((commonPreLen s1 s2 (min 4 (min s1.length s2.length)) : ℕ) : ℚ) ≤ 4 := by
    exact_mod_cast hple
  have h01 : (0.1 : ℚ) = 1 / 10 := by norm_num
  rw [h01]
  constructor
  · nlinarith
  · nlinarith

theorem ngram_bounds (s1 s2 : List Char) :
    0 ≤ ngramSimilarity s1 s2 ∧ ngramSimilarity s1 s2 ≤ 1 := by
  unfold ngramSimilarity
  have hI1 : ((generateNgrams s1 3) ∩ (generateNgrams s2 3)).card
      ≤ (generateNgrams s1 3).card :=
    Finset.card_le_card Finset.inter_subset_left
  have hI2 : ((generateNgrams s1 3) ∩ (generateNgrams s2 3)).card
      ≤ (generateNgrams s2 3).card :=
    Finset.card_le_card Finset.inter_subset_right
  by_cases h : (generateNgrams s1 3).card + (generateNgrams s2 3).card
      - ((generateNgrams s1 3) ∩ (generateNgrams s2 3)).card = 0
  · rw [if_pos h]; norm_num
  · rw [if_neg h]
    have hU : 0 < (generateNgrams s1 3).card + (generateNgrams s2 3).card
        - ((generateNgrams s1 3) ∩ (generateNgrams s2 3)).card := Nat.pos_of_ne_zero h
    have hIU : ((generateNgrams s1 3) ∩ (generateNgrams s2 3)).card
        ≤ (generateNgrams s1 3).card + (generateNgrams s2 3).card
        - ((generateNgrams s1 3) ∩ (generateNgrams s2 3)).card := by omega
    have hUq : (0 : ℚ) < (((generateNgrams s1 3).card + (generateNgrams s2 3).card
        - ((generateNgrams s1 3) ∩ (generateNgrams s2 3)).card : ℕ) : ℚ) := by
      exact_mod_cast hU
    constructor
    · positivity
    · rw [div_le_one hUq]
      exact_mod_cast hIU

theorem strStarts_length : ∀ t q : List Char, strStarts t q = true → q.length ≤ t.length := by
  intro t
  induction t with
  | nil =>
    intro q h
    cases q with
    | nil => simp
    | cons => simp [strStarts] at h
  | cons c cs ih =>
    intro q h
    cases q with
    | nil => simp
    | cons d ds =>
      simp only [strStarts, Bool.and_eq_true] at h
      simpa using ih ds h.2

theorem wordJWLoop_bounds (q : List Char) (ws : List (List Char)) :
    0 ≤ wordJWLoop q ws ∧ wordJWLoop q ws ≤ 4 / 5 := by
  induction ws with
  | nil =>
    refine ⟨le_refl 0, ?_⟩
    show (0 : ℚ) ≤ 4 / 5
    norm_num
  | cons w ws ih =>
    unfold wordJWLoop
    by_cases hw : (0.85 : ℚ) ≤ jaroWinklerSimilarity q w
    · rw [if_pos hw]
      obtain ⟨-, hjw1⟩ := jw_bounds q w
      have h085 : (0.85 : ℚ) = 17 / 20 := by norm_num
      have h05 : (0.5 : ℚ) = 1 / 2 := by norm_num
      rw [h085, h05]
      rw [h085] at hw
      constructor <;> linarith
    · rw [if_neg hw]; exact ih

theorem fuzzyScore_bounds (nT lT : List Char → List Char) (q t : List Char) :
    0 ≤ fuzzyScore nT lT q t ∧ fuzzyScore nT lT q t ≤ 1 := by
  simp only [fuzzyScore]
  by_cases h1 : nT t = nT q
  · rw [if_pos h1]; norm_num
  rw [if_neg h1]
  by_cases h2 : lT t = lT q
  · rw [if_pos h2]; norm_num
  rw [if_neg h2]
  by_cases h3 : strStarts (nT t) (nT q) = true
  · rw [if_pos h3]
    have hlen := strStarts_length _ _ h3
    have hcast : (((nT q).length : ℕ) : ℚ) ≤ (((nT t).length : ℕ) : ℚ) := by
      exact_mod_cast hlen
    have hmin1 : min (0.15 : ℚ) (((((nT t).length : ℕ) : ℚ)
        - (((nT q).length : ℕ) : ℚ)) * 0.02) ≤ 0.15 := min_le_left _ _
    have hmin0 : (0 : ℚ) ≤ min (0.15 : ℚ) (((((nT t).length : ℕ) : ℚ)
        - (((nT q).length : ℕ) : ℚ)) * 0.02) := by
      apply le_min (by norm_num)
      nlinarith
    have h015 : (0.15 : ℚ) = 3 / 20 := by norm_num
    have h095 : (0.95 : ℚ) = 19 / 20 := by norm_num
    rw [h015, h095] at *
    constructor <;> linarith
  rw [if_neg h3]
  by_cases h4 : (splitWs (nT t)).any (fun w => strStarts w (nT q)) = true
  · rw [if_pos h4]; norm_num
  rw [if_neg h4]
  cases hidx : strIdxOf (nT q) (nT t) with
  | some position =>
    simp only [hidx]
    constructor
    · calc (0 : ℚ) ≤ 0.6 := by norm_num
        _ ≤ max 0.6 (0.75 - (position : ℚ) * 0.02) := le_max_left _ _
    · apply max_le (by norm_num)
      have hpos : (0 : ℚ) ≤ (position : ℚ) := by positivity
      nlinarith
  | none =>
    simp only [hidx]
    obtain ⟨hjw0, hjw1⟩ := jw_bounds (nT q) (nT t)
    obtain ⟨hng0, hng1⟩ := ngram_bounds (nT q) (nT t)
    by_cases h5 : (0.65 : ℚ) ≤ jaroWinklerSimilarity (nT q) (nT t) * 0.6
        + ngramSimilarity (nT q) (nT t) * 0.4
    · rw [if_pos h5]
      constructor <;> nlinarith
    · rw [if_neg h5]
      obtain ⟨hw0, hw1⟩ := wordJWLoop_bounds (nT q) (splitWs (nT t))
      exact ⟨hw0, by linarith⟩

/-- C8: `fuzzyScore` always lies in `[0, 1]`, and equals 1 whenever the
normalized forms of query and target coincide. -/
theorem C8_fuzzyScore_range (nT lT : List Char → List Char) (q t : List Char) :
    0 ≤ fuzzyScore nT lT q t ∧ fuzzyScore nT lT q t ≤ 1 ∧
    (nT q = nT t → fuzzyScore nT lT q t = 1) := by
  obtain ⟨h0, h1⟩ := fuzzyScore_bounds nT lT q t
  refine ⟨h0, h1, fun hq => ?_⟩
  unfold fuzzyScore
  rw [if_pos hq.symm]
  norm_num

theorem C8_fuzzyScore_range_witness : fuzzyScore id id ['k'] ['k'] = 1 :=
  (C8_fuzzyScore_range id id ['k'] ['k']).2.2 rfl

theorem C6_assembled_rings_closed_witness :
    4 ≤ ([((0 : ℚ), (0 : ℚ)), (1, 0), (1, 1), (0, 1), (0, 0)] : List GPos).length ∧
      ∀ x ∈ ([((0 : ℚ), (0 : ℚ)), (1, 0), (1, 1), (0, 1), (0, 0)] : List GPos).head?,
        ∀ y ∈ ([((0 : ℚ), (0 : ℚ)), (1, 0), (1, 1), (0, 1), (0, 0)] : List GPos).getLast?,
          |x.1 - y.1| ≤ 1e-9 ∧ |x.2 - y.2| ≤ 1e-9 :=
  C6_assembled_rings_closed exMembers6 exGeo6
    (.polygon [[(0, 0), (1, 0), (1, 1), (0, 1), (0, 0)]])
    (by with_unfolding_all decide) _ (by simp [ringsOfGeo])

theorem take_range' : ∀ (n m s : ℕ), (List.range' s n).take m = List.range' s (min n m) := by
  intro n
  induction n with
  | zero => intro m s; simp
  | succ n ih =>
    intro m s
    cases m with
    | zero => simp
    | succ m =>
      rw [List.range'_succ, List.take_succ_cons, ih m (s + 1)]
      rw [Nat.succ_min_succ, List.range'_succ]

theorem take_filter_prefix {α : Type} (p : α → Bool) :
    ∀ (l : List α) (n : ℕ), ∃ m, (l.take n).filter p = (l.filter p).take m := by
  intro l
  induction l with
  | nil => intro n; exact ⟨0, by simp⟩
  | cons a t ih =>
    intro n
    cases n with
    | zero => exact ⟨0, by simp⟩
    | succ n =>
      obtain ⟨m, hm⟩ := ih n
      by_cases hp : p a = true
      · exact ⟨m + 1, by simp [List.take_succ_cons, List.filter_cons, hp, hm]⟩
      · exact ⟨m, by simp [List.take_succ_cons, List.filter_cons, hp, hm]⟩

theorem firstUniq_mem {α : Type} [DecidableEq α] (l : List α) :
    ∀ (acc : List α) (x : α),
      (x ∈ l.foldl (fun acc x => if x ∈ acc then acc else acc ++ [x]) acc ↔ x ∈ acc ∨ x ∈ l) := by
  induction l with
  | nil => simp
  | cons y ys ih =>
    intro acc x
    rw [List.foldl_cons]
    by_cases hy : y ∈ acc
    · rw [if_pos hy, ih]
      constructor
      · rintro (h | h)
        · exact Or.inl h
        · exact Or.inr (List.mem_cons_of_mem _ h)
      · rintro (h | h)
        · exact Or.inl h
        · rcases List.mem_cons.mp h with rfl | h
          · exact Or.inl hy
          · exact Or.inr h
    · rw [if_neg hy, ih]
      simp only [List.mem_append, List.mem_singleton, List.mem_cons]
      tauto

theorem mem_firstUniq {α : Type} [DecidableEq α] {x : α} {l : List α} :
    x ∈ firstUniq l ↔ x ∈ l := by
  unfold firstUniq
  rw [firstUniq_mem l [] x]
  simp

theorem firstUniq_nodup {α : Type} [DecidableEq α] (l : List α) :
    (firstUniq l).Nodup := by
  unfold firstUniq
  suffices h : ∀ acc : List α, acc.Nodup →
      (l.foldl (fun acc x => if x ∈ acc then acc else acc ++ [x]) acc).Nodup by
    exact h [] List.nodup_nil
  induction l with
  | nil => intro acc h; exact h
  | cons y ys ih =>
    intro acc hacc
    rw [List.foldl_cons]
    by_cases hy : y ∈ acc
    · rw [if_pos hy]; exact ih acc hacc
    · rw [if_neg hy]
      apply ih
      simp [List.nodup_append, hacc, hy]

theorem sectorBlock_degrees (cands : List AdjacentCand) (d : ℚ) :
    ∀ e ∈ sectorBlock cands d, e.degrees = d := by
  intro e he
  unfold sectorBlock at he
  rw [List.mem_map] at he
  obtain ⟨p, -, rfl⟩ := he
  rfl

theorem sectorBlock_levels (cands : List AdjacentCand) (d : ℚ) :
    (sectorBlock cands d).map (fun e => e.level)
      = List.range' 1 (sectorBlock cands d).length := by
  unfold sectorBlock
  rw [List.map_map, List.length_map]
  have h1 : ((fun e : AdjacentAreaResult => e.level) ∘
      (fun p : ℕ × AdjacentCand => mkAdjEntry p.2 d (p.1 + 1)))
      = fun p : ℕ × AdjacentCand => p.1 + 1 := by
    funext p; rfl
  rw [h1]
  have h2 : (fun p : ℕ × AdjacentCand => p.1 + 1)
      = (fun n : ℕ => n + 1) ∘ Prod.fst := by
    funext p; rfl
  rw [h2, ← List.map_map, List.enum_map_fst, List.enum_length]
  rw [List.range'_eq_map_range]
  apply List.map_congr_left
  intro n _
  omega

theorem sectorBlock_dist_sorted (cands : List AdjacentCand) (d : ℚ) :
    List.Sorted (· ≤ ·) ((sectorBlock cands d).map (fun e => e.distance_meters)) := by
  unfold sectorBlock
  rw [List.map_map]
  have h1 : ((fun e : AdjacentAreaResult => e.distance_meters) ∘
      (fun p : ℕ × AdjacentCand => mkAdjEntry p.2 d (p.1 + 1)))
      = (fun a : AdjacentCand => a.distance) ∘ Prod.snd := by
    funext p; rfl
  rw [h1, ← List.map_map, List.enum_map_snd]
  have hs := @List.sorted_mergeSort AdjacentCand
    (fun a b : AdjacentCand => decide (a.distance ≤ b.distance))
    (fun a b c hab hbc => by
      rw [decide_eq_true_eq] at *
      exact le_trans hab hbc)
    (fun a b => by
      rw [Bool.or_eq_true, decide_eq_true_eq, decide_eq_true_eq]
      exact le_total _ _)
    (cands.filter (fun a => a.degrees == d))
  exact List.pairwise_map.mpr (hs.imp of_decide_eq_true)

theorem sectorBlock_levels_strict (cands : List AdjacentCand) (d : ℚ) :
    List.Pairwise (fun a b : AdjacentAreaResult => a.level < b.level)
      (sectorBlock cands d) := by
  have h := List.pairwise_lt_range' 1 (sectorBlock cands d).length
  rw [← sectorBlock_levels cands d, List.pairwise_map] at h
  exact h

theorem filter_flatMap_blocks_empty (cands : List AdjacentCand) (d : ℚ)
    (ks : List ℚ) (hd : d ∉ ks) :
    (ks.flatMap (fun sector => sectorBlock cands sector)).filter
      (fun e => e.degrees == d) = [] := by
  induction ks with
  | nil => rfl
  | cons s rest ih =>
    rw [List.flatMap_cons, List.filter_append]
    have hs : s ≠ d := fun h => hd (h ▸ List.mem_cons_self _ _)
    have h1 : (sectorBlock cands s).filter (fun e => e.degrees == d) = [] := by
      rw [List.filter_eq_nil_iff]
      intro e he hpe
      rw [beq_iff_eq] at hpe
      exact hs ((sectorBlock_degrees cands s e he) ▸ hpe)
    rw [h1, ih (fun h => hd (List.mem_cons_of_mem _ h))]
    rfl

theorem filter_flatMap_blocks_mem (cands : List AdjacentCand) (d : ℚ) :
    ∀ ks : List ℚ, ks.Nodup → d ∈ ks →
      (ks.flatMap (fun sector => sectorBlock cands sector)).filter
        (fun e => e.degrees == d) = sectorBlock cands d := by
  intro ks
  induction ks with
  | nil => intro _ h; simp at h
  | cons s rest ih =>
    intro hnd hd
    rw [List.flatMap_cons, List.filter_append]
    rcases List.mem_cons.mp hd with rfl | hdrest
    · have h1 : (sectorBlock cands d).filter (fun e => e.degrees == d)
          = sectorBlock cands d := by
        rw [List.filter_eq_self]
        intro e he
        rw [beq_iff_eq]
        exact sectorBlock_degrees cands d e he
      have h2 : (rest.flatMap (fun sector => sectorBlock cands sector)).filter
          (fun e => e.degrees == d) = [] :=
        filter_flatMap_blocks_empty cands d rest (List.nodup_cons.mp hnd).1
      rw [h1, h2, List.append_nil]
    · have hs : s ≠ d := by
        rintro rfl
        exact (List.nodup_cons.mp hnd).1 hdrest
      have h1 : (sectorBlock cands s).filter (fun e => e.degrees == d) = [] := by
        rw [List.filter_eq_nil_iff]
        intro e he hpe
        rw [beq_iff_eq] at hpe
        exact hs ((sectorBlock_degrees cands s e he) ▸ hpe)
      rw [h1, ih (List.nodup_cons.mp hnd).2 hdrest]
      rfl

theorem filter_adjacentRaw (cands : List AdjacentCand) (d : ℚ) :
    (adjacentRaw cands).filter (fun e => e.degrees == d) = sectorBlock cands d := by
  unfold adjacentRaw
  by_cases hd : d ∈ firstUniq (cands.map (fun a => a.degrees))
  · exact filter_flatMap_blocks_mem cands d _ (firstUniq_nodup _) hd
  · rw [filter_flatMap_blocks_empty cands d _ hd]
    have hfil : cands.filter (fun a => a.degrees == d) = [] := by
      rw [List.filter_eq_nil_iff]
      intro a ha hpa
      rw [beq_iff_eq] at hpa
      exact hd (mem_firstUniq.mpr (List.mem_map.mpr ⟨a, ha, hpa⟩))
    unfold sectorBlock
    rw [hfil]
    simp [List.mergeSort_nil]

theorem adjLe_trans (a b c : AdjacentAreaResult)
    (hab : adjLe a b = true) (hbc : adjLe b c = true) : adjLe a c = true := by
  unfold adjLe at *
  simp only [Bool.or_eq_true, Bool.and_eq_true, decide_eq_true_eq, beq_iff_eq] at *
  rcases hab with h1 | ⟨h1, h2⟩ <;> rcases hbc with h3 | ⟨h3, h4⟩
  · exact Or.inl (lt_trans h1 h3)
  · exact Or.inl (h3 ▸ h1)
  · exact Or.inl (h1 ▸ h3)
  · exact Or.inr ⟨h1.trans h3, le_trans h2 h4⟩

theorem adjLe_total (a b : AdjacentAreaResult) : (adjLe a b || adjLe b a) = true := by
  unfold adjLe
  simp only [Bool.or_eq_true, Bool.and_eq_true, decide_eq_true_eq, beq_iff_eq]
  rcases lt_trichotomy a.level b.level with h | h | h
  · exact Or.inl (Or.inl h)
  · rcases le_total a.degrees b.degrees with hd | hd
    · exact Or.inl (Or.inr ⟨h, hd⟩)
    · exact Or.inr (Or.inr ⟨h.symm, hd⟩)
  · exact Or.inr (Or.inl h)

theorem sorted_mergeSort_adjLe (l : List AdjacentAreaResult) :
    List.Pairwise (fun a b => adjLe a b = true) (l.mergeSort adjLe) :=
  List.sorted_mergeSort adjLe_trans adjLe_total l

theorem filter_sorted_eq_block (cands : List AdjacentCand) (d : ℚ) :
    ((adjacentRaw cands).mergeSort adjLe).filter (fun e => e.degrees == d)
      = sectorBlock cands d := by
  have hperm : (((adjacentRaw cands).mergeSort adjLe).filter
      (fun e => e.degrees == d)).Perm (sectorBlock cands d) := by
    rw [← filter_adjacentRaw cands d]
    exact ((adjacentRaw cands).mergeSort_perm adjLe).filter _
  have hlevmap : ((((adjacentRaw cands).mergeSort adjLe).filter
      (fun e => e.degrees == d)).map (fun e => e.level)).Perm
      (List.range' 1 (sectorBlock cands d).length) := by
    rw [← sectorBlock_levels cands d]
    exact hperm.map _
  have hnodup : ((((adjacentRaw cands).mergeSort adjLe).filter
      (fun e => e.degrees == d)).map (fun e => e.level)).Nodup :=
    hlevmap.nodup_iff.mpr (List.nodup_range' 1 _)
  have hlevne := List.pairwise_map.mp hnodup
  have hple : List.Pairwise (fun a b : AdjacentAreaResult => adjLe a b = true)
      (((adjacentRaw cands).mergeSort adjLe).filter (fun e => e.degrees == d)) :=
    List.Pairwise.sublist (List.filter_sublist _) (sorted_mergeSort_adjLe _)
  have hstrict : List.Pairwise (fun a b : AdjacentAreaResult => a.level < b.level)
      (((adjacentRaw cands).mergeSort adjLe).filter (fun e => e.degrees == d)) := by
    refine (hple.and hlevne).imp ?_
    rintro a b ⟨hle, hne⟩
    unfold adjLe at hle
    simp only [Bool.or_eq_true, Bool.and_eq_true, decide_eq_true_eq, beq_iff_eq] at hle
    rcases hle with h | ⟨h, -⟩
    · exact h
    · exact absurd h hne
  haveI : IsAntisymm AdjacentAreaResult (fun a b => a.level < b.level) :=
    ⟨fun a b h1 h2 => absurd (lt_trans h1 h2) (lt_irrefl _)⟩
  exact List.eq_of_perm_of_sorted hperm hstrict (sectorBlock_levels_strict cands d)

theorem adjacentWithDirection_ne_center (O : GeoOracle) (center : GroupedAreaResult)
    (grouped : List GroupedAreaResult) :
    ∀ a ∈ adjacentWithDirection O center grouped,
      ¬(a.area.osm_id = center.osm_id ∧ a.area.osm_type = center.osm_type) := by
  intro a ha
  unfold adjacentWithDirection at ha
  rw [List.mem_filterMap] at ha
  obtain ⟨g, -, heq⟩ := ha
  by_cases hc : (g.osm_id == center.osm_id && g.osm_type == center.osm_type) = true
  · rw [if_pos hc] at heq
    exact absurd heq (by simp)
  · rw [if_neg hc] at heq
    rw [Option.some_inj] at heq
    subst heq
    simp only [Bool.and_eq_true, beq_iff_eq] at hc
    rintro ⟨h1, h2⟩
    exact hc ⟨h1, h2⟩

theorem sectorBlock_mem_cand (cands : List AdjacentCand) (d : ℚ)
    (e : AdjacentAreaResult) (he : e ∈ sectorBlock cands d) :
    ∃ a ∈ cands, ∃ lvl, e = mkAdjEntry a d lvl := by
  unfold sectorBlock at he
  rw [List.mem_map] at he
  obtain ⟨p, hp, rfl⟩ := he
  have hmem : p.2 ∈ (cands.filter (fun a => a.degrees == d)).mergeSort
      (fun a b => decide (a.distance ≤ b.distance)) :=
    List.getElem?_mem (List.mem_enum_iff_getElem?.mp hp)
  refine ⟨p.2, ?_, p.1 + 1, rfl⟩
  have hf := (List.mergeSort_perm _ _).mem_iff.mp hmem
  exact (List.mem_filter.mp hf).1

/-- C4: for every non-null adjacent-search result, within every sector the
level values of the returned entries form the contiguous ascending run
1, 2, …, k (ordered by non-decreasing stored distance inside the sector),
the resolved center (matched by osm id and type) never appears among the
adjacent entries, and the whole list is ordered by level ascending then
sector degrees ascending. -/
theorem C4_adjacent_structure (O : GeoOracle) (db : List DbRow)
    (center? : Option GroupedAreaResult) (radius : ℚ) (limit : ℕ)
    (res : AdjacentSearchResult)
    (h : findAdjacentAreas O db center? radius limit = some res) :
    (∀ d : ℚ, (res.adjacent.filter (fun e => e.degrees == d)).map (fun e => e.level)
        = List.range' 1 ((res.adjacent.filter (fun e => e.degrees == d)).length)) ∧
    (∀ d : ℚ, List.Sorted (· ≤ ·)
        ((res.adjacent.filter (fun e => e.degrees == d)).map (fun e => e.distance_meters))) ∧
    (∀ c, center? = some c →
        ∀ e ∈ res.adjacent, ¬(e.osm_id = c.osm_id ∧ e.osm_type = c.osm_type)) ∧
    List.Pairwise (fun a b : AdjacentAreaResult =>
        a.level < b.level ∨ (a.level = b.level ∧ a.degrees ≤ b.degrees)) res.adjacent := by
  cases center? with
  | none => exact absurd h (by simp [findAdjacentAreas])
  | some center =>
    simp only [findAdjacentAreas, Option.some_inj] at h
    subst h
    set cands := adjacentWithDirection O center
      (groupAreaResults (findAreasNearby O db center.center.lat center.center.lng
        radius (limit * 3))) with hcands
    refine ⟨?_, ?_, ?_, ?_⟩
    · intro d
      show ((((adjacentRaw cands).mergeSort adjLe).take limit).filter
          (fun e => e.degrees == d)).map (fun e => e.level)
        = List.range' 1 ((((adjacentRaw cands).mergeSort adjLe).take limit).filter
          (fun e => e.degrees == d)).length
      obtain ⟨m, hm⟩ := take_filter_prefix (fun e : AdjacentAreaResult => e.degrees == d)
        ((adjacentRaw cands).mergeSort adjLe) limit
      rw [hm, filter_sorted_eq_block, List.map_take, sectorBlock_levels, take_range',
        List.length_take]
      congr 1
      omega
    · intro d
      show List.Sorted (· ≤ ·) (((((adjacentRaw cands).mergeSort adjLe).take limit).filter
          (fun e => e.degrees == d)).map (fun e => e.distance_meters))
      obtain ⟨m, hm⟩ := take_filter_prefix (fun e : AdjacentAreaResult => e.degrees == d)
        ((adjacentRaw cands).mergeSort adjLe) limit
      rw [hm, filter_sorted_eq_block, List.map_take]
      exact List.Pairwise.sublist (List.take_sublist _ _) (sectorBlock_dist_sorted cands d)
    · rintro c hc e he
      rw [Option.some_inj] at hc
      subst hc
      have h1 : e ∈ (adjacentRaw cands).mergeSort adjLe :=
        (List.take_sublist _ _).subset he
      have h2 : e ∈ adjacentRaw cands :=
        ((adjacentRaw cands).mergeSort_perm adjLe).mem_iff.mp h1
      unfold adjacentRaw at h2
      rw [List.mem_flatMap] at h2
      obtain ⟨sct, -, hblk⟩ := h2
      obtain ⟨a, ha, lvl, rfl⟩ := sectorBlock_mem_cand cands sct _ hblk
      rw [hcands] at ha
      have hnc := adjacentWithDirection_ne_center O center _ a ha
      rintro ⟨h1', h2'⟩
      exact hnc ⟨h1', h2'⟩
    · show List.Pairwise _ (((adjacentRaw cands).mergeSort adjLe).take limit)
      refine List.Pairwise.imp ?_
        (List.Pairwise.sublist (List.take_sublist _ _) (sorted_mergeSort_adjLe _))
      intro a b hab
      unfold adjLe at hab
      simp only [Bool.or_eq_true, Bool.and_eq_true, decide_eq_true_eq, beq_iff_eq] at hab
      exact hab

set_option maxRecDepth 4000 in
theorem C4_adjacent_structure_witness :
    ((exRes4.adjacent.filter (fun e => e.degrees == 45)).map (fun e => e.level)
      = List.range' 1 ((exRes4.adjacent.filter (fun e => e.degrees == 45)).length)) ∧
    List.Pairwise (fun a b : AdjacentAreaResult =>
      a.level < b.level ∨ (a.level = b.level ∧ a.degrees ≤ b.degrees)) exRes4.adjacent := by
  have h := C4_adjacent_structure exO4 exDb4 (some exCenter4) 5000 20 exRes4
    (by with_unfolding_all decide)
  exact ⟨h.1 45, h.2.2.2⟩

end AreaApi
